import Mathlib

/-!
Shallow embedding of the slido-style real-time Q&A server (`src/server.js` and
its revisions `src/unnamed/part_000`..`part_005`).

The server keeps two kinds of state:
* a durable store (MongoDB): `Session` (room) and `Question` (message) records;
* an in-memory registry: `rooms : Map<String, Set<WebSocket>>` plus the ad-hoc
  `ws.roomCode` property attached to each connection handle.

Connection handles are modelled as natural numbers. JavaScript `Map` and `Set`
are modelled as association lists / duplicate-free lists preserving insertion
order, with the exact operations the source performs (`Map.has/get/set/delete`,
`Set.add/delete/size`). MongoDB calls (`findOne`, `save`, `findByIdAndDelete`,
`findOneAndUpdate`) are modelled as pure operations on a `Store`; a rejected
promise (persistence failure) is modelled by a boolean flag on the operation
that carries it, since the source `await`s inside `try`/`catch`.
-/

namespace Slido

/-- Durable room record (`Session` model in the source, server.js:18-24). -/
structure Session where
  id : String
  name : String
  code : String
  totalConnections : Nat
  createdAt : Nat
deriving DecidableEq, Repr

/-- Durable message record (`Question` model in the source, server.js:27-33).
`text` is `Option String` because the JS field is absent when the request body
has no `question` key. -/
structure Question where
  id : String
  text : Option String
  name : String
  sessionId : String
  createdAt : Nat
deriving DecidableEq, Repr

/-- The durable store: all persisted sessions and questions, plus a counter
used to mint fresh ObjectIds for new questions. -/
structure Store where
  sessions : List Session
  questions : List Question
  nextId : Nat
deriving DecidableEq, Repr

/-- Lower-case hex digit for a value below 16. -/
def hexDigit (n : Nat) : Char :=
  if n < 10 then Char.ofNat (48 + n) else Char.ofNat (87 + n)

/-- A fresh 24-character hex ObjectId, minted from the store counter
(models MongoDB assigning `_id` on document creation). -/
def objectIdOf (n : Nat) : String :=
  String.mk ((List.range 24).map (fun i => hexDigit (n / 16 ^ (23 - i) % 16)))

/-- Hex-digit test used by the ObjectId validity check. -/
def isHexDigit (c : Char) : Bool :=
  (48 ≤ c.toNat && c.toNat ≤ 57) || (97 ≤ c.toNat && c.toNat ≤ 102) ||
    (65 ≤ c.toNat && c.toNat ≤ 70)

/-- Embeds `mongoose.Types.ObjectId.isValid` on strings (server.js:132): true
for a 24-character hex string, and also for any 12-character string (mongoose
treats those as 12-byte ids). -/
def isValidObjectId (s : String) : Bool :=
  s.length == 12 || (s.length == 24 && s.toList.all isHexDigit)

/-- Embeds `Session.findOne({ code })`: the first session whose `code` matches. -/
def findSessionByCode (st : Store) (code : String) : Option Session :=
  st.sessions.find? (fun s => s.code == code)

/-- Embeds `Session.findById(id)`: the first session whose `_id` matches. -/
def findSessionById (st : Store) (sid : String) : Option Session :=
  st.sessions.find? (fun s => s.id == sid)

/-- Embeds the JS default `name || '匿名'` (server.js:112): `none` (absent) and
`some ""` (blank) are falsy, so both fall back to the anonymous placeholder. -/
def jsOrName (name : Option String) : String :=
  match name with
  | none => "匿名"
  | some v => if v = "" then "匿名" else v

/-- Outbound WebSocket event payloads (server.js:115-122, 147-150, 198). -/
inductive WSData where
  | newQuestion (id : String) (text : Option String) (name : String)
  | questionDeleted (questionId : String)
  | clientCountUpdate (count : Nat)
deriving DecidableEq, Repr

/-- A broadcast invocation: `broadcastToRoom(roomCode, data)`. -/
abbrev BEvent := String × WSData

/-- Result of an HTTP API handler: response status, store after the call, and
the list of `broadcastToRoom` invocations it made, in order. -/
structure ApiRes where
  status : Nat
  store : Store
  broadcasts : List BEvent
deriving DecidableEq, Repr

/-- Embeds `app.post('/api/ask/:code')` (server.js:106-125). Looks up the
session by room code (404 if absent), builds the question with the anonymous
name default, saves it (`saveOk` models whether `newQuestion.save()` resolves),
and only then broadcasts `new_question` with the persisted record's `_id`.
A rejected save jumps to `catch`, so no broadcast occurs; the later revisions
(second half of server.js, part_005:148) respond 500 there. -/
def submit (st : Store) (code : String) (question name : Option String)
    (saveOk : Bool) (now : Nat) : ApiRes :=
  match findSessionByCode st code with
  | none => ⟨404, st, []⟩
  | some session =>
    let q : Question :=
      ⟨objectIdOf st.nextId, question, jsOrName name, session.id, now⟩
    if saveOk then
      ⟨200, { st with questions := st.questions ++ [q], nextId := st.nextId + 1 },
        [(session.code, WSData.newQuestion q.id q.text q.name)]⟩
    else
      ⟨500, st, []⟩

/-- Embeds `app.delete('/api/questions/:id')` (server.js:128-158): reject a
syntactically invalid id with 400 before touching the store; otherwise
`findByIdAndDelete` (404 when no match), then look up the owning session and
broadcast `question_deleted` to its room. -/
def deleteQuestion (st : Store) (idStr : String) : ApiRes :=
  if isValidObjectId idStr then
    match st.questions.find? (fun q => q.id == idStr) with
    | none => ⟨404, st, []⟩
    | some dq =>
      let st' : Store :=
        { st with questions := st.questions.eraseP (fun q => q.id == idStr) }
      match findSessionById st' dq.sessionId with
      | none => ⟨200, st', []⟩
      | some sess => ⟨200, st', [(sess.code, WSData.questionDeleted dq.id)]⟩
  else
    ⟨400, st, []⟩

/-- Questions belonging to a session (`Question.find({ sessionId })`). -/
def questionsOf (st : Store) (sid : String) : List Question :=
  st.questions.filter (fun q => q.sessionId == sid)

/-- Sort key for `.sort({ createdAt: 1 })`. -/
def qLE (a b : Question) : Prop := a.createdAt ≤ b.createdAt

instance : DecidableRel qLE := fun a b => Nat.decLe a.createdAt b.createdAt

instance : IsTotal Question qLE := ⟨fun a b => Nat.le_total a.createdAt b.createdAt⟩

instance : IsTrans Question qLE := ⟨fun _ _ _ h h' => Nat.le_trans h h'⟩

/-- Sort key for `.sort({ createdAt: -1 })` (the part_005 revision). -/
def qGE (a b : Question) : Prop := b.createdAt ≤ a.createdAt

instance : DecidableRel qGE := fun a b => Nat.decLe b.createdAt a.createdAt

instance : IsTotal Question qGE := ⟨fun a b => Nat.le_total b.createdAt a.createdAt⟩

instance : IsTrans Question qGE := ⟨fun _ _ _ h h' => Nat.le_trans h' h⟩

/-- Embeds `app.get('/api/sessions/:code')` as written in server.js:92-103:
find the session (none models the 404), then its questions sorted by
`createdAt` ascending (`.sort({ createdAt: 1 })`, server.js:98). Note the
part_005 revision instead sorts descending (`{ createdAt: -1 }`, part_005:145);
see `getSessionByCodeNewestFirst`. -/
def getSessionByCode (st : Store) (code : String) : Option (Session × List Question) :=
  match findSessionByCode st code with
  | none => none
  | some s => some (s, (questionsOf st s.id).insertionSort qLE)

/-- Embeds the part_005:145 revision of the same route, which sorts by
`createdAt` descending (newest first). -/
def getSessionByCodeNewestFirst (st : Store) (code : String) :
    Option (Session × List Question) :=
  match findSessionByCode st code with
  | none => none
  | some s => some (s, (questionsOf st s.id).insertionSort qGE)

/-- Modelled from the spec: "questions sorted by recency (most recent first)"
(spec §6, claim C9). True when each question's `createdAt` is at least the
next one's. -/
def mostRecentFirst : List Question → Bool
  | [] => true
  | [_] => true
  | a :: b :: rest => decide (b.createdAt ≤ a.createdAt) && mostRecentFirst (b :: rest)

/-! ### The in-memory room registry

`rooms` is a JavaScript `Map` from room code to a `Set` of connection handles;
`ws.roomCode` is a string property attached to each handle. Both are modelled
as insertion-ordered association lists with the exact `Map`/`Set` semantics. -/

/-- JS `Map.prototype.has`. -/
def mapHas : List (String × List Nat) → String → Bool
  | [], _ => false
  | (k, _) :: rest, key => if k = key then true else mapHas rest key

/-- JS `Map.prototype.get` (as an `Option`). -/
def mapFind : List (String × List Nat) → String → Option (List Nat)
  | [], _ => none
  | (k, v) :: rest, key => if k = key then some v else mapFind rest key

/-- JS `Map.prototype.set`: replace the value in place if the key exists,
otherwise append a new entry. -/
def mapSet : List (String × List Nat) → String → List Nat → List (String × List Nat)
  | [], key, v => [(key, v)]
  | (k, v') :: rest, key, v =>
    if k = key then (key, v) :: rest else (k, v') :: mapSet rest key v

/-- JS `Map.prototype.delete`: remove the entry for the key. -/
def mapDelete : List (String × List Nat) → String → List (String × List Nat)
  | [], _ => []
  | (k, v') :: rest, key =>
    if k = key then rest else (k, v') :: mapDelete rest key

/-- JS `Set.prototype.add`: append the element if absent (sets preserve
insertion order and ignore duplicate adds). -/
def setAdd (s : List Nat) (x : Nat) : List Nat :=
  if x ∈ s then s else s ++ [x]

/-- Lookup of the `ws.roomCode` property for a handle. -/
def assocFind : List (Nat × String) → Nat → Option String
  | [], _ => none
  | (k, v) :: rest, key => if k = key then some v else assocFind rest key

/-- Assignment `ws.roomCode = code` for a handle. -/
def assocSet : List (Nat × String) → Nat → String → List (Nat × String)
  | [], key, v => [(key, v)]
  | (k, v') :: rest, key, v =>
    if k = key then (key, v) :: rest else (k, v') :: assocSet rest key v

/-- The in-memory connection state: the `rooms` map (server.js:179) and the
`roomCode` property of every handle that has one. -/
structure RegState where
  rooms : List (String × List Nat)
  wsRoom : List (Nat × String)
deriving DecidableEq, Repr

/-- The registry at process start: no rooms, no marked handles. -/
def initReg : RegState := ⟨[], []⟩

/-- An inbound WebSocket frame, as seen by `ws.on('message')` after
`JSON.parse`: either unparseable (`malformed`, the parse throws), or an object
with a `type` tag and an optional `room` field. -/
inductive Frame where
  | malformed
  | ctrl (ty : String) (room : Option String)
deriving DecidableEq, Repr

/-- The room code a frame effectively joins, if any: the handler acts only
when `data.type === 'join' && data.room` (server.js:185), where an absent or
empty `room` is falsy. -/
def joinTarget : Frame → Option String
  | Frame.malformed => none
  | Frame.ctrl ty room =>
    match room with
    | none => none
    | some r => if ty = "join" ∧ r ≠ "" then some r else none

/-- Embeds `Session.findOneAndUpdate({ code }, { $inc: { totalConnections: 1 } })`
(server.js:195): bump the counter of the first session with that code; resolve
with no store change when no session matches (Mongo does not error on a
missing match). -/
def incTotalConnections : List Session → String → List Session
  | [], _ => []
  | s :: rest, code =>
    if s.code = code then
      { s with totalConnections := s.totalConnections + 1 } :: rest
    else
      s :: incTotalConnections rest code

/-- The body of the join branch (server.js:186-198): set `ws.roomCode`, create
the room set if absent, add the handle, then `await` the counter increment and
broadcast the new size. `persistOk` models whether `findOneAndUpdate` resolves;
when it rejects, control jumps to the handler's `catch` (server.js:200), so the
membership mutation stands but the count broadcast is skipped and the store is
unchanged. -/
def handleJoin (reg : RegState) (store : Store) (ws : Nat) (roomCode : String)
    (persistOk : Bool) : RegState × Store × List BEvent :=
  let wsRoom' := assocSet reg.wsRoom ws roomCode
  let rooms0 := if mapHas reg.rooms roomCode then reg.rooms
                else mapSet reg.rooms roomCode []
  let members := (mapFind rooms0 roomCode).getD []
  let rooms1 := mapSet rooms0 roomCode (setAdd members ws)
  let reg' : RegState := ⟨rooms1, wsRoom'⟩
  if persistOk then
    let store' : Store := { store with sessions := incTotalConnections store.sessions roomCode }
    let cnt := ((mapFind reg'.rooms roomCode).getD []).length
    (reg', store', [(roomCode, WSData.clientCountUpdate cnt)])
  else
    (reg', store, [])

/-- Embeds `ws.on('message')` (server.js:181-201): a malformed frame is caught
and logged (state untouched, connection kept open — the handler has no close
path); a parsed frame acts only when it is an effective join. -/
def handleMessage (reg : RegState) (store : Store) (ws : Nat) (f : Frame)
    (persistOk : Bool) : RegState × Store × List BEvent :=
  match joinTarget f with
  | none => (reg, store, [])
  | some r => handleJoin reg store ws r persistOk

/-- Embeds `ws.on('close')` (server.js:203-218): if the handle carries a
`roomCode` and the room is live, remove the handle from the set, then either
broadcast the new size (if members remain) or delete the room entry. -/
def handleClose (reg : RegState) (ws : Nat) : RegState × List BEvent :=
  match assocFind reg.wsRoom ws with
  | none => (reg, [])
  | some rc =>
    if mapHas reg.rooms rc then
      let room := (mapFind reg.rooms rc).getD []
      let room' := room.erase ws
      if room'.length > 0 then
        (⟨mapSet reg.rooms rc room', reg.wsRoom⟩,
          [(rc, WSData.clientCountUpdate room'.length)])
      else
        (⟨mapDelete reg.rooms rc, reg.wsRoom⟩, [])
    else
      (reg, [])

/-- A live connection's transport as `broadcastToRoom` sees it: the `ws`
`readyState` field, plus whether the underlying transport is broken (in the
`ws` library a send on such a socket reports its error asynchronously to an
ignored callback; it does not throw into the caller). -/
structure Client where
  readyState : Nat
  broken : Bool
deriving DecidableEq, Repr

/-- `WebSocket.OPEN`. -/
def WS_OPEN : Nat := 1

/-- One `client.send` attempt: delivery happens unless the transport is
broken; a broken transport's failure is reported asynchronously, never raised. -/
def sendTo (cl : Client) (target : Nat) (data : WSData) : List (Nat × WSData) :=
  if cl.broken then [] else [(target, data)]

/-- Embeds `broadcastToRoom` (server.js:221-229): enumerate the room's members
and send to each whose `readyState === WebSocket.OPEN`; returns the list of
actual deliveries, in iteration order. -/
def broadcastToRoom (rooms : List (String × List Nat)) (clients : Nat → Client)
    (roomCode : String) (data : WSData) : List (Nat × WSData) :=
  match mapFind rooms roomCode with
  | none => []
  | some members =>
    members.foldl (fun acc c =>
      if (clients c).readyState = WS_OPEN then acc ++ sendTo (clients c) c data
      else acc) []

/-! ### Traces of connection events -/

/-- One event-loop step on the connection layer: an inbound frame from some
handle (with the fate of its counter-increment persistence), or a close. -/
inductive Op where
  | msg (ws : Nat) (f : Frame) (persistOk : Bool)
  | close (ws : Nat)
deriving DecidableEq, Repr

/-- One step of the server on registry-plus-store state. -/
def regStep (s : RegState × Store) (op : Op) : RegState × Store :=
  match op with
  | Op.msg ws f p =>
    let r := handleMessage s.1 s.2 ws f p
    (r.1, r.2.1)
  | Op.close ws => ((handleClose s.1 ws).1, s.2)

/-- Run a trace of connection events from a given state. -/
def runOps (s : RegState × Store) (ops : List Op) : RegState × Store :=
  ops.foldl regStep s

/-- The live member count the server reports for a room: `rooms.get(code).size`,
0 when the code is unknown in memory. -/
def countOf (reg : RegState) (roomCode : String) : Nat :=
  ((mapFind reg.rooms roomCode).getD []).length

/-- The registry's enumerable keys (the room codes of the `rooms` map). -/
def registryKeys (reg : RegState) : List String :=
  reg.rooms.map Prod.fst

/-- Modelled from the spec (claim C3): one step of the "net outstanding"
membership ledger for room `r` — a join adds the handle (idempotently: a
handle's join is outstanding at most once), a leave retires it. -/
def specStep (r : String) (out : List Nat) (op : Op) : List Nat :=
  match op with
  | Op.msg ws f _ => if joinTarget f = some r then setAdd out ws else out
  | Op.close ws => out.erase ws

/-- Modelled from the spec (claim C3): the handles whose join of room `r` is
currently outstanding (joined and not since left) after a trace. -/
def specNetOutstanding (r : String) (ops : List Op) : List Nat :=
  ops.foldl (specStep r) []

/-- Checks that an operation only ever joins room `r` (frames that join other
rooms are excluded; non-join traffic and closes are allowed). -/
def opOnRoom (r : String) : Op → Bool
  | Op.close _ => true
  | Op.msg _ f _ =>
    match joinTarget f with
    | none => true
    | some r2 => r2 == r

/-- A trace confined to room `r` for claim C3. -/
def opsOnRoom (r : String) (ops : List Op) : Bool :=
  ops.all (opOnRoom r)

/-- The effective join an operation performs: the handle and room code. -/
def opJoin : Op → Option (Nat × String)
  | Op.msg ws f _ => (joinTarget f).map (fun r => (ws, r))
  | Op.close _ => none

/-- Checks that no handle sends effective joins for two different room codes
anywhere in the trace. -/
def joinsConsistent (ops : List Op) : Bool :=
  ops.all fun o1 => ops.all fun o2 =>
    match opJoin o1, opJoin o2 with
    | some p1, some p2 => p1.1 != p2.1 || p1.2 == p2.2
    | _, _ => true

/-- Each handle is in at most one room's membership set: any two registry
entries sharing a member have the same room code. -/
def atMostOneRoom (reg : RegState) : Prop :=
  ∀ p ∈ reg.rooms, ∀ q ∈ reg.rooms, ∀ w ∈ p.2, w ∈ q.2 → p.1 = q.1

instance (reg : RegState) : Decidable (atMostOneRoom reg) := by
  unfold atMostOneRoom
  infer_instance

/-! ### Concrete fixtures used by witnesses and counterexamples -/

/-- A session with room code `"R"`. -/
def sess1 : Session := ⟨"s1", "Talk", "R", 0, 0⟩

/-- A store holding just `sess1`. -/
def st1 : Store := ⟨[sess1], [], 0⟩

/-- A persisted question owned by `sess1`. -/
def q7 : Question := ⟨objectIdOf 0, some "Hi", "匿名", "s1", 1⟩

/-- A store holding `sess1` and `q7`. -/
def st7 : Store := ⟨[sess1], [q7], 1⟩

/-- An older question (createdAt 1). -/
def q9a : Question := ⟨objectIdOf 0, some "first", "匿名", "s1", 1⟩

/-- A newer question (createdAt 2). -/
def q9b : Question := ⟨objectIdOf 1, some "second", "匿名", "s1", 2⟩

/-- A store with two questions of distinct creation times in room `"R"`. -/
def st9 : Store := ⟨[sess1], [q9a, q9b], 2⟩

/-- A room with three live members. -/
def rooms4 : List (String × List Nat) := [("R", [0, 1, 2])]

/-- Three open transports, of which member 2's is broken. -/
def clients4 : Nat → Client := fun n => if n = 2 then ⟨WS_OPEN, true⟩ else ⟨WS_OPEN, false⟩

/-- Trace: handles 0 and 1 join room `"R"`, then handle 0 disconnects. -/
def ops3 : List Op :=
  [Op.msg 0 (Frame.ctrl "join" (some "R")) true,
   Op.msg 1 (Frame.ctrl "join" (some "R")) true,
   Op.close 0]

/-- Trace: handle 0 joins room `"A"` and then sends a second join for `"B"`. -/
def ops6c : List Op :=
  [Op.msg 0 (Frame.ctrl "join" (some "A")) true,
   Op.msg 0 (Frame.ctrl "join" (some "B")) true]

/-- Trace where every handle keeps to a single room code. -/
def ops6w : List Op :=
  [Op.msg 0 (Frame.ctrl "join" (some "A")) true,
   Op.msg 1 (Frame.ctrl "join" (some "B")) true,
   Op.msg 0 (Frame.ctrl "join" (some "A")) true]

/-! ### Helper lemmas on the map/set/assoc models -/

theorem mapFind_mapSet_self (m : List (String × List Nat)) (k : String) (v : List Nat) :
    mapFind (mapSet m k v) k = some v := by
  induction m with
  | nil => simp [mapSet, mapFind]
  | cons p rest ih =>
    by_cases h : p.1 = k
    · simp [mapSet, mapFind, h]
    · simpa [mapSet, mapFind, h] using ih

theorem mem_setAdd_self (s : List Nat) (x : Nat) : x ∈ setAdd s x := by
  by_cases h : x ∈ s <;> simp [setAdd, h]

theorem mem_setAdd (s : List Nat) (x y : Nat) : y ∈ setAdd s x ↔ y ∈ s ∨ y = x := by
  by_cases h : x ∈ s
  · simp only [setAdd, if_pos h]
    constructor
    · exact Or.inl
    · rintro (hy | rfl)
      · exact hy
      · exact h
  · simp [setAdd, if_neg h]

theorem setAdd_ne_nil (s : List Nat) (x : Nat) : setAdd s x ≠ [] := by
  intro hnil
  have := mem_setAdd_self s x
  rw [hnil] at this
  exact List.not_mem_nil x this

theorem assocFind_assocSet (m : List (Nat × String)) (k k2 : Nat) (v : String) :
    assocFind (assocSet m k v) k2 = if k2 = k then some v else assocFind m k2 := by
  induction m with
  | nil =>
    by_cases h : k2 = k
    · subst h; simp [assocSet, assocFind]
    · have h' : ¬ k = k2 := fun he => h he.symm
      simp [assocSet, assocFind, h, h']
  | cons p rest ih =>
    obtain ⟨a, b⟩ := p
    by_cases h : a = k
    · subst h
      by_cases h2 : k2 = a
      · subst h2; simp [assocSet, assocFind]
      · have h2' : ¬ a = k2 := fun he => h2 he.symm
        simp [assocSet, assocFind, h2, h2']
    · by_cases h2 : a = k2
      · subst h2
        have hne : ¬ a = k := h
        simp [assocSet, assocFind, h, hne]
      · simp [assocSet, assocFind, h, h2, ih]

theorem incTotalConnections_of_none (l : List Session) (r : String)
    (h : l.find? (fun s => s.code == r) = none) : incTotalConnections l r = l := by
  induction l with
  | nil => rfl
  | cons s rest ih =>
    rw [List.find?_cons] at h
    by_cases hc : s.code = r
    · simp [hc] at h
    · have hb : (s.code == r) = false := by simpa using hc
      rw [hb] at h
      simp only [incTotalConnections, if_neg hc]
      rw [ih h]

/-- Unfolds the fold in `broadcastToRoom` into a filter over the member list:
delivery goes to exactly the members whose transport is open and unbroken,
independently of any other member's state. -/
theorem broadcast_foldl (clients : Nat → Client) (data : WSData) (l : List Nat)
    (acc : List (Nat × WSData)) :
    l.foldl (fun acc c =>
        if (clients c).readyState = WS_OPEN then acc ++ sendTo (clients c) c data
        else acc) acc =
      acc ++ (l.filter (fun c =>
        decide ((clients c).readyState = WS_OPEN) && !(clients c).broken)).map
          (fun c => (c, data)) := by
  induction l generalizing acc with
  | nil => simp
  | cons a rest ih =>
    rw [List.foldl_cons]
    have hstep : (if (clients a).readyState = WS_OPEN
          then acc ++ sendTo (clients a) a data else acc)
        = acc ++ (if (decide ((clients a).readyState = WS_OPEN) && !(clients a).broken) = true
          then [(a, data)] else []) := by
      by_cases hopen : (clients a).readyState = WS_OPEN
      · by_cases hbr : (clients a).broken <;> simp [hopen, hbr, sendTo]
      · simp [hopen]
    show List.foldl _
        (if (clients a).readyState = WS_OPEN then acc ++ sendTo (clients a) a data else acc)
        rest = _
    rw [hstep, ih, List.filter_cons]
    by_cases hc : (decide ((clients a).readyState = WS_OPEN) && !(clients a).broken) = true
    · simp [hc]
    · simp [hc]

/-- Joining always lands the handle in the room's membership set, whatever the
fate of the counter-increment persistence. -/
theorem handleJoin_mem (reg : RegState) (store : Store) (ws : Nat) (r : String)
    (p : Bool) : ws ∈ ((mapFind (handleJoin reg store ws r p).1.rooms r).getD []) := by
  cases p <;> simp [handleJoin, mapFind_mapSet_self, mem_setAdd_self]

/-- Joining marks the handle with the room code, whatever the fate of the
counter-increment persistence. -/
theorem handleJoin_wsRoom (reg : RegState) (store : Store) (ws : Nat) (r : String)
    (p : Bool) : (handleJoin reg store ws r p).1.wsRoom = assocSet reg.wsRoom ws r := by
  cases p <;> simp [handleJoin]

theorem handleJoin_false_store (reg : RegState) (store : Store) (ws : Nat) (r : String) :
    (handleJoin reg store ws r false).2.1 = store := rfl

theorem handleJoin_false_events (reg : RegState) (store : Store) (ws : Nat) (r : String) :
    (handleJoin reg store ws r false).2.2 = [] := rfl

theorem handleJoin_true_store (reg : RegState) (store : Store) (ws : Nat) (r : String) :
    (handleJoin reg store ws r true).2.1 =
      { store with sessions := incTotalConnections store.sessions r } := rfl

theorem handleJoin_true_events (reg : RegState) (store : Store) (ws : Nat) (r : String) :
    (handleJoin reg store ws r true).2.2 =
      [(r, WSData.clientCountUpdate (countOf (handleJoin reg store ws r true).1 r))] := rfl

/-- A frame `{type: "join", room: r}` with nonempty `r` reaches the join body. -/
theorem handleMessage_join (reg : RegState) (store : Store) (ws : Nat) (r : String)
    (p : Bool) (h : r ≠ "") :
    handleMessage reg store ws (Frame.ctrl "join" (some r)) p = handleJoin reg store ws r p := by
  unfold handleMessage joinTarget
  simp [h]

/-! ### Claim theorems -/

/-- C1: for a submission to an existing room, `submit` first persists the
question — sender name equal to the given name, or the anonymous placeholder
`"匿名"` when the name is omitted (`none`) or blank (`some ""`) — and invokes
exactly one `new_question` broadcast carrying the persisted record's assigned
id (`objectIdOf st.nextId`, the `_id` of the appended record); when the durable
write fails (`saveOk = false`), the store is unchanged and no broadcast occurs. -/
theorem submit_persists_then_broadcasts (st : Store) (code : String)
    (question name : Option String) (saveOk : Bool) (now : Nat) (sess : Session)
    (v : String) (h : findSessionByCode st code = some sess) (hv : v ≠ "") :
    (saveOk = false →
      submit st code question name saveOk now = ⟨500, st, []⟩) ∧
    (saveOk = true →
      submit st code question name saveOk now =
        ⟨200,
          { st with
              questions := st.questions ++
                [⟨objectIdOf st.nextId, question, jsOrName name, sess.id, now⟩],
              nextId := st.nextId + 1 },
          [(sess.code, WSData.newQuestion (objectIdOf st.nextId) question (jsOrName name))]⟩) ∧
    jsOrName none = "匿名" ∧ jsOrName (some "") = "匿名" ∧ jsOrName (some v) = v := by
  unfold submit
  rw [h]
  refine ⟨?_, ?_, rfl, by simp [jsOrName], by simp [jsOrName, hv]⟩
  · rintro rfl; rfl
  · rintro rfl; rfl

/-- C1 witness: submitting `{question: "Hi"}` with no name to the room `"R"`
of `st1` persists the anonymous record and broadcasts its id. -/
theorem submit_persists_then_broadcasts_witness :
    (true = false → submit st1 "R" (some "Hi") none true 5 = ⟨500, st1, []⟩) ∧
    (true = true →
      submit st1 "R" (some "Hi") none true 5 =
        ⟨200,
          { st1 with
              questions := st1.questions ++
                [⟨objectIdOf st1.nextId, some "Hi", jsOrName none, sess1.id, 5⟩],
              nextId := st1.nextId + 1 },
          [(sess1.code, WSData.newQuestion (objectIdOf st1.nextId) (some "Hi") (jsOrName none))]⟩) ∧
    jsOrName none = "匿名" ∧ jsOrName (some "") = "匿名" ∧ jsOrName (some "Alice") = "Alice" :=
  submit_persists_then_broadcasts st1 "R" (some "Hi") none true 5 sess1 "Alice"
    (by decide) (by decide)

/-- C2: a submission whose room code resolves to no persisted session yields
404 with the store unchanged and no broadcast. -/
theorem submit_room_not_found (st : Store) (code : String)
    (question name : Option String) (saveOk : Bool) (now : Nat)
    (h : findSessionByCode st code = none) :
    submit st code question name saveOk now = ⟨404, st, []⟩ := by
  unfold submit
  rw [h]

/-- C2 witness: submitting to the nonexistent room `"ABC123"` of the empty
store is a 404 with no persisted record and no broadcast. -/
theorem submit_room_not_found_witness :
    submit ⟨[], [], 0⟩ "ABC123" (some "Hi") (some "Alice") true 0 = ⟨404, ⟨[], [], 0⟩, []⟩ :=
  submit_room_not_found ⟨[], [], 0⟩ "ABC123" (some "Hi") (some "Alice") true 0 (by decide)

/-- C8: a malformed frame is dropped (the parse error is caught and logged)
with the registry, the handle's state and the store unchanged and nothing
broadcast; a well-formed control frame whose `type` is not `"join"` is ignored
the same way. The handler is a total function with no close path, so the
connection stays open in both cases. -/
theorem handler_ignores_bad_frames (reg : RegState) (store : Store) (ws : Nat)
    (p : Bool) (ty : String) (room : Option String) (h : ty ≠ "join") :
    handleMessage reg store ws Frame.malformed p = (reg, store, []) ∧
    handleMessage reg store ws (Frame.ctrl ty room) p = (reg, store, []) := by
  refine ⟨rfl, ?_⟩
  unfold handleMessage joinTarget
  cases room with
  | none => rfl
  | some r => simp [h]

/-- C8 witness: a malformed frame and a `"ping"` control frame both leave the
state untouched. -/
theorem handler_ignores_bad_frames_witness :
    handleMessage initReg st1 0 Frame.malformed true = (initReg, st1, []) ∧
    handleMessage initReg st1 0 (Frame.ctrl "ping" (some "R")) true = (initReg, st1, []) :=
  handler_ignores_bad_frames initReg st1 0 true "ping" (some "R") (by decide)

/-- C10: a join whose room code has no persisted session still succeeds
in memory: the handle lands in the (possibly just created) membership set, the
durable store is unchanged (`findOneAndUpdate` matches nothing and resolves),
and the `client_count_update` broadcast is sent. Durable room existence is
never checked on join. -/
theorem join_ignores_durable_existence (reg : RegState) (store : Store) (ws : Nat)
    (r : String) (h1 : r ≠ "") (h2 : findSessionByCode store r = none) :
    ws ∈ ((mapFind (handleMessage reg store ws (Frame.ctrl "join" (some r)) true).1.rooms r).getD []) ∧
    (handleMessage reg store ws (Frame.ctrl "join" (some r)) true).2.1 = store ∧
    (handleMessage reg store ws (Frame.ctrl "join" (some r)) true).2.2 =
      [(r, WSData.clientCountUpdate
        (countOf (handleMessage reg store ws (Frame.ctrl "join" (some r)) true).1 r))] := by
  rw [handleMessage_join reg store ws r true h1]
  refine ⟨handleJoin_mem reg store ws r true, ?_, handleJoin_true_events reg store ws r⟩
  rw [handleJoin_true_store]
  unfold findSessionByCode at h2
  have : incTotalConnections store.sessions r = store.sessions :=
    incTotalConnections_of_none store.sessions r h2
  rw [this]

/-- C10 witness: handle 0 joins room `"R"` against the empty store. -/
theorem join_ignores_durable_existence_witness :
    0 ∈ ((mapFind (handleMessage initReg ⟨[], [], 0⟩ 0 (Frame.ctrl "join" (some "R")) true).1.rooms "R").getD []) ∧
    (handleMessage initReg ⟨[], [], 0⟩ 0 (Frame.ctrl "join" (some "R")) true).2.1 = (⟨[], [], 0⟩ : Store) ∧
    (handleMessage initReg ⟨[], [], 0⟩ 0 (Frame.ctrl "join" (some "R")) true).2.2 =
      [("R", WSData.clientCountUpdate
        (countOf (handleMessage initReg ⟨[], [], 0⟩ 0 (Frame.ctrl "join" (some "R")) true).1 "R"))] :=
  join_ignores_durable_existence initReg ⟨[], [], 0⟩ 0 "R" (by decide) (by decide)

/-- C5 counterexample: with a persisted session for `"R"` in the store, handle
0 joins room `"R"` and the counter increment's persistence fails; the handle is
registered, but — contrary to the claim — the `client_count_update` broadcast
does not happen: the rejected `await` jumps to the handler's `catch`, skipping
the broadcast (server.js:195-198 run inside one `try`). -/
theorem join_persist_failure_counterexample :
    0 ∈ ((mapFind (handleMessage initReg st1 0 (Frame.ctrl "join" (some "R")) false).1.rooms "R").getD []) ∧
    (handleMessage initReg st1 0 (Frame.ctrl "join" (some "R")) false).2.2 = [] := by
  decide

/-- C5 amended: a failure to persist the historical counter increment does not
undo the join — the handle is still registered in the room's membership set and
marked with the room code, and the durable store is unchanged — but the
`client_count_update` broadcast is skipped, because the rejected `await` is
caught by the handler's `try`/`catch` before the broadcast line runs. -/
theorem join_persist_failure_keeps_membership (reg : RegState) (store : Store)
    (ws : Nat) (r : String) (h : r ≠ "") :
    ws ∈ ((mapFind (handleMessage reg store ws (Frame.ctrl "join" (some r)) false).1.rooms r).getD []) ∧
    assocFind (handleMessage reg store ws (Frame.ctrl "join" (some r)) false).1.wsRoom ws = some r ∧
    (handleMessage reg store ws (Frame.ctrl "join" (some r)) false).2.1 = store ∧
    (handleMessage reg store ws (Frame.ctrl "join" (some r)) false).2.2 = [] := by
  rw [handleMessage_join reg store ws r false h]
  refine ⟨handleJoin_mem reg store ws r false, ?_,
    handleJoin_false_store reg store ws r, handleJoin_false_events reg store ws r⟩
  rw [handleJoin_wsRoom, assocFind_assocSet]
  simp

/-- C5 amended witness: handle 0 joins `"R"` with a failing increment. -/
theorem join_persist_failure_keeps_membership_witness :
    0 ∈ ((mapFind (handleMessage initReg st1 0 (Frame.ctrl "join" (some "R")) false).1.rooms "R").getD []) ∧
    assocFind (handleMessage initReg st1 0 (Frame.ctrl "join" (some "R")) false).1.wsRoom 0 = some "R" ∧
    (handleMessage initReg st1 0 (Frame.ctrl "join" (some "R")) false).2.1 = st1 ∧
    (handleMessage initReg st1 0 (Frame.ctrl "join" (some "R")) false).2.2 = [] :=
  join_persist_failure_keeps_membership initReg st1 0 "R" (by decide)

/-- C4: broadcasting to a room delivers to exactly the members whose transport
is open and unbroken, in membership order: a broken or closed member is
skipped without affecting delivery to the rest. The model of a send on a
broken-but-open transport reflects the `ws` library, which reports such errors
asynchronously instead of throwing, so `broadcastToRoom` (a total function)
never raises to its caller. -/
theorem broadcast_delivers_independently (rooms : List (String × List Nat))
    (clients : Nat → Client) (code : String) (data : WSData) (members : List Nat)
    (h : mapFind rooms code = some members) :
    broadcastToRoom rooms clients code data =
      (members.filter (fun c =>
        decide ((clients c).readyState = WS_OPEN) && !(clients c).broken)).map
          (fun c => (c, data)) := by
  unfold broadcastToRoom
  rw [h]
  simpa using broadcast_foldl clients data members []

/-- C4 witness: the spec's example — a room of three live members, member 2's
transport broken — delivers to members 0 and 1 only. -/
theorem broadcast_delivers_independently_witness :
    broadcastToRoom rooms4 clients4 "R" (WSData.clientCountUpdate 3) =
      (([0, 1, 2] : List Nat).filter (fun c =>
        decide ((clients4 c).readyState = WS_OPEN) && !(clients4 c).broken)).map
          (fun c => (c, WSData.clientCountUpdate 3)) ∧
    broadcastToRoom rooms4 clients4 "R" (WSData.clientCountUpdate 3) =
      [(0, WSData.clientCountUpdate 3), (1, WSData.clientCountUpdate 3)] := by
  refine ⟨broadcast_delivers_independently rooms4 clients4 "R" (WSData.clientCountUpdate 3)
    [0, 1, 2] (by decide), by decide⟩

/-- C7: deleting by a valid id that matches a persisted question whose owning
session exists returns 200, removes exactly that one record (the length drops
by one), and triggers exactly one `question_deleted` broadcast, sent to the
owning session's room; deleting by a syntactically invalid id returns 400 with
the store unchanged and no broadcast. -/
theorem delete_question_broadcasts_once (st : Store) (idStr bad : String)
    (dq : Question) (sess : Session)
    (hvalid : isValidObjectId idStr = true)
    (hfind : st.questions.find? (fun q => q.id == idStr) = some dq)
    (hsess : findSessionById st dq.sessionId = some sess)
    (hbad : isValidObjectId bad = false) :
    deleteQuestion st idStr =
      ⟨200, { st with questions := st.questions.eraseP (fun q => q.id == idStr) },
        [(sess.code, WSData.questionDeleted dq.id)]⟩ ∧
    (st.questions.eraseP (fun q => q.id == idStr)).length + 1 = st.questions.length ∧
    deleteQuestion st bad = ⟨400, st, []⟩ := by
  refine ⟨?_, ?_, ?_⟩
  · have hsess' : findSessionById
        { st with questions := st.questions.eraseP (fun q => q.id == idStr) } dq.sessionId =
        some sess := hsess
    simp only [deleteQuestion, hvalid, reduceIte, hfind, hsess']
  · have hmem : dq ∈ st.questions := List.mem_of_find?_eq_some hfind
    have hpa := List.find?_some hfind
    exact List.length_eraseP_add_one hmem hpa
  · unfold deleteQuestion
    rw [hbad]
    rfl

/-- C7 witness: deleting `q7` (valid existing id, owning session `sess1`)
succeeds with one broadcast; deleting by the invalid id `"xyz"` is a 400. -/
theorem delete_question_broadcasts_once_witness :
    deleteQuestion st7 (objectIdOf 0) =
      ⟨200, { st7 with questions := st7.questions.eraseP (fun q => q.id == objectIdOf 0) },
        [(sess1.code, WSData.questionDeleted q7.id)]⟩ ∧
    (st7.questions.eraseP (fun q => q.id == objectIdOf 0)).length + 1 = st7.questions.length ∧
    deleteQuestion st7 "xyz" = ⟨400, st7, []⟩ :=
  delete_question_broadcasts_once st7 (objectIdOf 0) "xyz" q7 sess1
    (by decide) (by decide) (by decide) (by decide)

/-- C9 counterexample: in `server.js` (lines 92-103) the questions of an
existing room come back sorted by `createdAt` ascending (`.sort({createdAt: 1})`),
so the room `"R"` of `st9` yields `[q9a, q9b]` — oldest first — which is not
"most recent first" as the claim states. (The part_005 revision instead sorts
descending; see `newest_first_revision_matches_spec`.) -/
theorem get_session_sorted_counterexample :
    getSessionByCode st9 "R" = some (sess1, [q9a, q9b]) ∧
    mostRecentFirst [q9a, q9b] = false := by
  constructor
  · rfl
  · decide

/-- C9 amended: for every existing room code, `GET /api/sessions/:code` as
written in server.js returns the found session together with exactly its
questions (a permutation of the store's questions for that session), sorted by
creation time ascending — oldest first, not most recent first. -/
theorem get_session_sorted_oldest_first (st : Store) (code : String) (s : Session)
    (qs : List Question) (h : getSessionByCode st code = some (s, qs)) :
    findSessionByCode st code = some s ∧ qs.Sorted qLE ∧ qs.Perm (questionsOf st s.id) := by
  unfold getSessionByCode at h
  cases hf : findSessionByCode st code with
  | none => rw [hf] at h; exact absurd h (by simp)
  | some s2 =>
    rw [hf] at h
    have hs : s2 = s ∧ (questionsOf st s2.id).insertionSort qLE = qs := by
      have := Option.some.inj h
      exact ⟨congrArg Prod.fst this, congrArg Prod.snd this⟩
    obtain ⟨rfl, hqs⟩ := hs
    subst hqs
    exact ⟨rfl, List.sorted_insertionSort qLE _, List.perm_insertionSort qLE _⟩

/-- C9 amended witness: the room `"R"` of `st9` returns `[q9a, q9b]`, sorted
ascending and a permutation of the room's two questions. -/
theorem get_session_sorted_oldest_first_witness :
    getSessionByCode st9 "R" = some (sess1, [q9a, q9b]) ∧
    (findSessionByCode st9 "R" = some sess1 ∧
      List.Sorted qLE [q9a, q9b] ∧ List.Perm [q9a, q9b] (questionsOf st9 sess1.id)) :=
  ⟨by rfl, get_session_sorted_oldest_first st9 "R" sess1 [q9a, q9b] (by rfl)⟩

/-- The part_005:145 revision of the route does return the questions newest
first, matching the spec sentence for that revision. -/
theorem newest_first_revision_matches_spec (st : Store) (code : String) (s : Session)
    (qs : List Question) (h : getSessionByCodeNewestFirst st code = some (s, qs)) :
    qs.Sorted qGE ∧ qs.Perm (questionsOf st s.id) := by
  unfold getSessionByCodeNewestFirst at h
  cases hf : findSessionByCode st code with
  | none => rw [hf] at h; exact absurd h (by simp)
  | some s2 =>
    rw [hf] at h
    have hs : s2 = s ∧ (questionsOf st s2.id).insertionSort qGE = qs := by
      have := Option.some.inj h
      exact ⟨congrArg Prod.fst this, congrArg Prod.snd this⟩
    obtain ⟨rfl, hqs⟩ := hs
    subst hqs
    exact ⟨List.sorted_insertionSort qGE _, List.perm_insertionSort qGE _⟩

/-! ### Claim C3: live count versus net outstanding joins -/

theorem handleMessage_nojoin (reg : RegState) (store : Store) (ws : Nat) (f : Frame)
    (p : Bool) (h : joinTarget f = none) :
    handleMessage reg store ws f p = (reg, store, []) := by
  unfold handleMessage
  rw [h]

theorem handleMessage_eq_join (reg : RegState) (store : Store) (ws : Nat) (f : Frame)
    (p : Bool) (r2 : String) (h : joinTarget f = some r2) :
    handleMessage reg store ws f p = handleJoin reg store ws r2 p := by
  unfold handleMessage
  rw [h]

/-- The registry after a join, with the `Map`/`Set` mutations spelled out;
independent of the persistence fate. -/
theorem handleJoin_fst (reg : RegState) (store : Store) (ws : Nat) (r : String)
    (p : Bool) :
    (handleJoin reg store ws r p).1 =
      ⟨mapSet (if mapHas reg.rooms r = true then reg.rooms else mapSet reg.rooms r []) r
        (setAdd ((mapFind (if mapHas reg.rooms r = true then reg.rooms
          else mapSet reg.rooms r []) r).getD []) ws),
       assocSet reg.wsRoom ws r⟩ := by
  cases p <;> simp [handleJoin]

theorem handleClose_none (reg : RegState) (ws : Nat)
    (h : assocFind reg.wsRoom ws = none) : handleClose reg ws = (reg, []) := by
  unfold handleClose
  rw [h]

theorem handleClose_noroom (reg : RegState) (ws : Nat) (rc : String)
    (h : assocFind reg.wsRoom ws = some rc) (h2 : mapHas reg.rooms rc = false) :
    handleClose reg ws = (reg, []) := by
  unfold handleClose
  rw [h]
  simp [h2]

theorem handleClose_pos (reg : RegState) (ws : Nat) (rc : String)
    (h : assocFind reg.wsRoom ws = some rc) (h2 : mapHas reg.rooms rc = true)
    (h3 : 0 < (((mapFind reg.rooms rc).getD []).erase ws).length) :
    handleClose reg ws =
      (⟨mapSet reg.rooms rc (((mapFind reg.rooms rc).getD []).erase ws), reg.wsRoom⟩,
        [(rc, WSData.clientCountUpdate ((((mapFind reg.rooms rc).getD []).erase ws)).length)]) := by
  unfold handleClose
  rw [h]
  simp [h2, h3]

theorem handleClose_empty (reg : RegState) (ws : Nat) (rc : String)
    (h : assocFind reg.wsRoom ws = some rc) (h2 : mapHas reg.rooms rc = true)
    (h3 : (((mapFind reg.rooms rc).getD []).erase ws).length = 0) :
    handleClose reg ws = (⟨mapDelete reg.rooms rc, reg.wsRoom⟩, []) := by
  unfold handleClose
  rw [h]
  simp [h2, h3]

/-- Induction invariant for claim C3 on traces confined to room `r`: the
registry holds either no room at all or exactly room `r` with the nonempty
member list `out`; every marked handle is marked with `r`; and every member of
`out` is marked. -/
def invC3 (r : String) (out : List Nat) (reg : RegState) : Prop :=
  ((out = [] ∧ reg.rooms = []) ∨ (out ≠ [] ∧ reg.rooms = [(r, out)])) ∧
  (∀ w s, assocFind reg.wsRoom w = some s → s = r) ∧
  (∀ w, w ∈ out → assocFind reg.wsRoom w = some r)

theorem invC3_step (r : String) (out : List Nat) (reg : RegState) (store : Store)
    (op : Op) (hop : opOnRoom r op = true) (hinv : invC3 r out reg) :
    invC3 r (specStep r out op) (regStep (reg, store) op).1 := by
  obtain ⟨hrooms, hws, hmem⟩ := hinv
  cases op with
  | msg ws f p =>
    simp only [regStep, specStep]
    cases hjt : joinTarget f with
    | none =>
      rw [handleMessage_nojoin reg store ws f p hjt, if_neg (by simp [hjt])]
      exact ⟨hrooms, hws, hmem⟩
    | some r2 =>
      have hr2 : r2 = r := by
        have h1 : (r2 == r) = true := by simpa [opOnRoom, hjt] using hop
        exact eq_of_beq h1
      subst hr2
      rw [handleMessage_eq_join reg store ws f p r2 hjt, if_pos rfl, handleJoin_fst]
      have hwsRoom : ∀ w s, assocFind (assocSet reg.wsRoom ws r2) w = some s → s = r2 := by
        intro w s hfind
        rw [assocFind_assocSet] at hfind
        by_cases hw : w = ws
        · rw [if_pos hw] at hfind
          exact (Option.some.inj hfind).symm
        · rw [if_neg hw] at hfind
          exact hws w s hfind
      have hmem' : ∀ w, w ∈ setAdd out ws → assocFind (assocSet reg.wsRoom ws r2) w = some r2 := by
        intro w hw
        rw [assocFind_assocSet]
        by_cases hweq : w = ws
        · rw [if_pos hweq]
        · rw [if_neg hweq]
          rcases (mem_setAdd out ws w).mp hw with hwin | hweq2
          · exact hmem w hwin
          · exact absurd hweq2 hweq
      rcases hrooms with ⟨hout, hr⟩ | ⟨hout, hr⟩
      · subst hout
        rw [hr]
        refine ⟨Or.inr ⟨setAdd_ne_nil [] ws, ?_⟩, hwsRoom, hmem'⟩
        simp [mapHas, mapSet, mapFind]
      · rw [hr]
        refine ⟨Or.inr ⟨setAdd_ne_nil out ws, ?_⟩, hwsRoom, hmem'⟩
        simp [mapHas, mapSet, mapFind]
  | close ws =>
    simp only [regStep, specStep]
    cases hfind : assocFind reg.wsRoom ws with
    | none =>
      have hnot : ws ∉ out := by
        intro hin
        rw [hmem ws hin] at hfind
        cases hfind
      rw [handleClose_none reg ws hfind, List.erase_of_not_mem hnot]
      exact ⟨hrooms, hws, hmem⟩
    | some rc =>
      have hrc : rc = r := hws ws rc hfind
      subst hrc
      rcases hrooms with ⟨hout, hr⟩ | ⟨hout, hr⟩
      · subst hout
        have h2 : mapHas reg.rooms rc = false := by rw [hr]; rfl
        rw [handleClose_noroom reg ws rc hfind h2, List.erase_nil]
        exact ⟨Or.inl ⟨rfl, hr⟩, hws, hmem⟩
      · have h2 : mapHas reg.rooms rc = true := by rw [hr]; simp [mapHas]
        have hget : (mapFind reg.rooms rc).getD [] = out := by rw [hr]; simp [mapFind]
        by_cases h3 : 0 < ((out.erase ws)).length
        · rw [handleClose_pos reg ws rc hfind h2 (by rw [hget]; exact h3)]
          rw [hget]
          refine ⟨Or.inr ⟨?_, ?_⟩, hws, ?_⟩
          · intro hnil
            rw [hnil] at h3
            exact Nat.lt_irrefl 0 h3
          · rw [hr]; simp [mapSet]
          · intro w hw
            exact hmem w (List.mem_of_mem_erase hw)
        · have h3' : ((out.erase ws)).length = 0 := Nat.eq_zero_of_not_pos h3
          rw [handleClose_empty reg ws rc hfind h2 (by rw [hget]; exact h3')]
          have herase : out.erase ws = [] := List.length_eq_zero.mp h3'
          rw [herase]
          refine ⟨Or.inl ⟨rfl, ?_⟩, hws, by intro w hw; cases hw⟩
          rw [hr]
          simp [mapDelete]

theorem invC3_run (r : String) (ops : List Op) :
    ∀ (reg : RegState) (store : Store) (out : List Nat),
      opsOnRoom r ops = true → invC3 r out reg →
      invC3 r (ops.foldl (specStep r) out) (runOps (reg, store) ops).1 := by
  induction ops with
  | nil => exact fun reg store out _ hinv => hinv
  | cons op rest ih =>
    intro reg store out hops hinv
    have hsplit : opOnRoom r op = true ∧ opsOnRoom r rest = true := by
      simpa [opsOnRoom] using hops
    have hstep := invC3_step r out reg store op hsplit.1 hinv
    exact ih (regStep (reg, store) op).1 (regStep (reg, store) op).2
      (specStep r out op) hsplit.2 hstep

/-- C3: over any trace of connection events confined to room `r` (starting
from the fresh registry), the live member count the server reports for `r`
equals the number of handles whose join is currently outstanding (joined and
not since left — the net of joins minus leaves, with a member's repeated join
counting once, since `Set.add` is idempotent); the count is a natural number
and hence never negative; and whenever it is 0 the room's entry is absent from
the registry's enumerable keys. -/
theorem live_count_matches_net_outstanding (r : String) (ops : List Op) (store : Store)
    (h : opsOnRoom r ops = true) :
    countOf (runOps (initReg, store) ops).1 r = (specNetOutstanding r ops).length ∧
    0 ≤ countOf (runOps (initReg, store) ops).1 r ∧
    (countOf (runOps (initReg, store) ops).1 r = 0 →
      r ∉ registryKeys (runOps (initReg, store) ops).1) := by
  have hinit : invC3 r [] initReg := by
    refine ⟨Or.inl ⟨rfl, rfl⟩, ?_, ?_⟩
    · intro w s hws
      simp [initReg, assocFind] at hws
    · intro w hw
      cases hw
  have hrun := invC3_run r ops initReg store [] h hinit
  obtain ⟨hrooms, -, -⟩ := hrun
  rcases hrooms with ⟨hout, hr⟩ | ⟨hout, hr⟩
  · refine ⟨?_, Nat.zero_le _, ?_⟩
    · simp [countOf, hr, mapFind, specNetOutstanding, hout]
    · intro _
      simp [registryKeys, hr]
  · refine ⟨?_, Nat.zero_le _, ?_⟩
    · simp [countOf, hr, mapFind, specNetOutstanding]
    · intro hzero
      exfalso
      apply hout
      have hlen : (ops.foldl (specStep r) []).length = 0 := by
        simpa [countOf, hr, mapFind] using hzero
      exact List.length_eq_zero.mp hlen

/-- C3 witness: handles 0 and 1 join `"R"`, handle 0 leaves — the reported
count is 1, matching the one outstanding join. -/
theorem live_count_matches_net_outstanding_witness :
    opsOnRoom "R" ops3 = true ∧
    (countOf (runOps (initReg, ⟨[], [], 0⟩) ops3).1 "R" = (specNetOutstanding "R" ops3).length ∧
     0 ≤ countOf (runOps (initReg, ⟨[], [], 0⟩) ops3).1 "R" ∧
     (countOf (runOps (initReg, ⟨[], [], 0⟩) ops3).1 "R" = 0 →
       "R" ∉ registryKeys (runOps (initReg, ⟨[], [], 0⟩) ops3).1)) :=
  ⟨by decide, live_count_matches_net_outstanding "R" ops3 ⟨[], [], 0⟩ (by decide)⟩

/-! ### Claim C6: a handle's presence across room membership sets -/

theorem mem_mapSet (m : List (String × List Nat)) (k : String) (v : List Nat)
    (q : String × List Nat) (h : q ∈ mapSet m k v) : q = (k, v) ∨ q ∈ m := by
  induction m with
  | nil => simpa [mapSet] using h
  | cons p rest ih =>
    obtain ⟨a, b⟩ := p
    by_cases hk : a = k
    · subst hk
      rw [mapSet, if_pos rfl] at h
      rcases List.mem_cons.mp h with rfl | h2
      · exact Or.inl rfl
      · exact Or.inr (List.mem_cons_of_mem _ h2)
    · rw [mapSet, if_neg hk] at h
      rcases List.mem_cons.mp h with rfl | h2
      · exact Or.inr (List.mem_cons_self _ _)
      · rcases ih h2 with h3 | h3
        · exact Or.inl h3
        · exact Or.inr (List.mem_cons_of_mem _ h3)

theorem mem_mapDelete (m : List (String × List Nat)) (k : String)
    (q : String × List Nat) (h : q ∈ mapDelete m k) : q ∈ m := by
  induction m with
  | nil => simp [mapDelete] at h
  | cons p rest ih =>
    obtain ⟨a, b⟩ := p
    by_cases hk : a = k
    · rw [mapDelete, if_pos hk] at h
      exact List.mem_cons_of_mem _ h
    · rw [mapDelete, if_neg hk] at h
      rcases List.mem_cons.mp h with rfl | h2
      · exact List.mem_cons_self _ _
      · exact List.mem_cons_of_mem _ (ih h2)

theorem mapFind_mem (m : List (String × List Nat)) (k : String) (v : List Nat)
    (h : mapFind m k = some v) : (k, v) ∈ m := by
  induction m with
  | nil => cases h
  | cons p rest ih =>
    obtain ⟨a, b⟩ := p
    by_cases hk : a = k
    · subst hk
      rw [mapFind, if_pos rfl] at h
      rw [← Option.some.inj h]
      exact List.mem_cons_self _ _
    · rw [mapFind, if_neg hk] at h
      exact List.mem_cons_of_mem _ (ih h)

theorem joinsConsistent_spec (ops : List Op) (h : joinsConsistent ops = true)
    (o1 o2 : Op) (h1 : o1 ∈ ops) (h2 : o2 ∈ ops) (w : Nat) (c1 c2 : String)
    (hj1 : opJoin o1 = some (w, c1)) (hj2 : opJoin o2 = some (w, c2)) : c1 = c2 := by
  unfold joinsConsistent at h
  rw [List.all_eq_true] at h
  have ha := h o1 h1
  rw [List.all_eq_true] at ha
  have hb := ha o2 h2
  rw [hj1, hj2] at hb
  simpa using hb

/-- Induction invariant for claim C6 relative to the whole trace `ops`: every
member of every room's set is marked with that room's code, and every mark was
produced by some effective join in the trace. -/
def invC6 (ops : List Op) (reg : RegState) : Prop :=
  (∀ q ∈ reg.rooms, ∀ w ∈ q.2, assocFind reg.wsRoom w = some q.1) ∧
  (∀ w c, assocFind reg.wsRoom w = some c → ∃ op ∈ ops, opJoin op = some (w, c))

/-- Join preservation for `invC6`, shared by the two shapes the pre-mutation
room table can take (`rooms0` is the table after the `Map.set` that creates an
empty set for a new code, or the unchanged table). -/
theorem invC6_join_core (ops : List Op) (hcons : joinsConsistent ops = true)
    (reg : RegState) (ws : Nat) (r : String) (rooms0 : List (String × List Nat))
    (hroom : ∀ q ∈ reg.rooms, ∀ w ∈ q.2, assocFind reg.wsRoom w = some q.1)
    (htrace : ∀ w c, assocFind reg.wsRoom w = some c → ∃ op ∈ ops, opJoin op = some (w, c))
    (hjoin : ∃ op ∈ ops, opJoin op = some (ws, r))
    (hsub : ∀ q ∈ rooms0, q.2 = [] ∨ q ∈ reg.rooms) :
    invC6 ops ⟨mapSet rooms0 r (setAdd ((mapFind rooms0 r).getD []) ws),
      assocSet reg.wsRoom ws r⟩ := by
  have hmark : ∀ w c, w ∈ ((mapFind rooms0 r).getD []) →
      assocFind reg.wsRoom w = some c → c = r := by
    intro w c hw hc
    cases hf : mapFind rooms0 r with
    | none => rw [hf] at hw; cases hw
    | some v =>
      rw [hf] at hw
      simp only [Option.getD_some] at hw
      rcases hsub (r, v) (mapFind_mem rooms0 r v hf) with hqnil | hin
      · have hv : v = [] := hqnil
        rw [hv] at hw; cases hw
      · have := hroom (r, v) hin w hw
        rw [hc] at this
        exact Option.some.inj this
  constructor
  · intro q hq w hw
    rcases mem_mapSet rooms0 r _ q hq with rfl | hq2
    · rcases (mem_setAdd _ ws w).mp hw with hwin | rfl
      · rw [assocFind_assocSet]
        by_cases hweq : w = ws
        · rw [if_pos hweq]
        · rw [if_neg hweq]
          cases hold : assocFind reg.wsRoom w with
          | none =>
            exfalso
            cases hf : mapFind rooms0 r with
            | none => rw [hf] at hwin; cases hwin
            | some v =>
              rw [hf] at hwin
              simp only [Option.getD_some] at hwin
              rcases hsub (r, v) (mapFind_mem rooms0 r v hf) with hnil | hin
              · have hv : v = [] := hnil
                rw [hv] at hwin; cases hwin
              · have := hroom (r, v) hin w hwin
                rw [hold] at this
                cases this
          | some c =>
            rw [hmark w c hwin hold]
      · rw [assocFind_assocSet, if_pos rfl]
    · rcases hsub q hq2 with hnil | hin
      · rw [hnil] at hw; cases hw
      · have hold := hroom q hin w hw
        rw [assocFind_assocSet]
        by_cases hweq : w = ws
        · rw [if_pos hweq]
          subst hweq
          obtain ⟨o1, ho1, hj1⟩ := htrace w q.1 hold
          obtain ⟨o2, ho2, hj2⟩ := hjoin
          rw [joinsConsistent_spec ops hcons o1 o2 ho1 ho2 w q.1 r hj1 hj2]
        · rw [if_neg hweq]
          exact hold
  · intro w c hc
    rw [assocFind_assocSet] at hc
    by_cases hweq : w = ws
    · rw [if_pos hweq] at hc
      rw [hweq, ← Option.some.inj hc]
      exact hjoin
    · rw [if_neg hweq] at hc
      exact htrace w c hc

theorem invC6_step (ops : List Op) (hcons : joinsConsistent ops = true)
    (reg : RegState) (store : Store) (op : Op) (hmem : op ∈ ops)
    (hinv : invC6 ops reg) : invC6 ops (regStep (reg, store) op).1 := by
  obtain ⟨hroom, htrace⟩ := hinv
  cases op with
  | msg ws f p =>
    cases hjt : joinTarget f with
    | none =>
      simp only [regStep]
      rw [handleMessage_nojoin reg store ws f p hjt]
      exact ⟨hroom, htrace⟩
    | some r =>
      simp only [regStep]
      rw [handleMessage_eq_join reg store ws f p r hjt, handleJoin_fst]
      have hjoin : ∃ o ∈ ops, opJoin o = some (ws, r) :=
        ⟨Op.msg ws f p, hmem, by simp [opJoin, hjt]⟩
      by_cases hhas : mapHas reg.rooms r = true
      · rw [if_pos hhas]
        exact invC6_join_core ops hcons reg ws r reg.rooms hroom htrace hjoin
          (fun q hq => Or.inr hq)
      · rw [if_neg hhas]
        refine invC6_join_core ops hcons reg ws r (mapSet reg.rooms r []) hroom htrace hjoin ?_
        intro q hq
        rcases mem_mapSet reg.rooms r [] q hq with rfl | hq2
        · exact Or.inl rfl
        · exact Or.inr hq2
  | close ws =>
    simp only [regStep]
    cases hfind : assocFind reg.wsRoom ws with
    | none =>
      rw [handleClose_none reg ws hfind]
      exact ⟨hroom, htrace⟩
    | some rc =>
      by_cases hhas : mapHas reg.rooms rc = true
      · by_cases h3 : 0 < (((mapFind reg.rooms rc).getD []).erase ws).length
        · rw [handleClose_pos reg ws rc hfind hhas h3]
          refine ⟨?_, htrace⟩
          intro q hq w hw
          rcases mem_mapSet reg.rooms rc _ q hq with rfl | hq2
          · have hw2 : w ∈ (mapFind reg.rooms rc).getD [] := List.mem_of_mem_erase hw
            cases hf : mapFind reg.rooms rc with
            | none => rw [hf] at hw2; cases hw2
            | some v =>
              rw [hf] at hw2
              simp only [Option.getD_some] at hw2
              exact hroom (rc, v) (mapFind_mem reg.rooms rc v hf) w hw2
          · exact hroom q hq2 w hw
        · rw [handleClose_empty reg ws rc hfind hhas (Nat.eq_zero_of_not_pos h3)]
          refine ⟨?_, htrace⟩
          intro q hq w hw
          exact hroom q (mem_mapDelete reg.rooms rc q hq) w hw
      · rw [handleClose_noroom reg ws rc hfind (Bool.eq_false_iff.mpr hhas)]
        exact ⟨hroom, htrace⟩

theorem invC6_run (ops : List Op) (hcons : joinsConsistent ops = true) :
    ∀ (suf : List Op) (reg : RegState) (store : Store),
      (∀ o ∈ suf, o ∈ ops) → invC6 ops reg → invC6 ops (runOps (reg, store) suf).1 := by
  intro suf
  induction suf with
  | nil => exact fun reg store _ hinv => hinv
  | cons op rest ih =>
    intro reg store hsub hinv
    have hstep := invC6_step ops hcons reg store op (hsub op (List.mem_cons_self op rest)) hinv
    exact ih (regStep (reg, store) op).1 (regStep (reg, store) op).2
      (fun o ho => hsub o (List.mem_cons_of_mem op ho)) hstep

/-- C6 counterexample: starting fresh, handle 0 joins `"A"` and then sends a
second join for `"B"` (trace `ops6c`); the join handler adds the handle to the
new room's set without removing it from the old one (server.js:185-192), so
handle 0 ends up in both `"A"`'s and `"B"`'s membership sets, refuting the
claimed invariant at this reachable state. -/
theorem second_join_two_rooms_counterexample :
    0 ∈ ((mapFind (runOps (initReg, ⟨[], [], 0⟩) ops6c).1.rooms "A").getD []) ∧
    0 ∈ ((mapFind (runOps (initReg, ⟨[], [], 0⟩) ops6c).1.rooms "B").getD []) ∧
    ¬ atMostOneRoom (runOps (initReg, ⟨[], [], 0⟩) ops6c).1 := by
  decide

/-- C6 amended: at every state reachable by a trace in which no handle sends
effective joins for two different room codes, each connection handle appears
in at most one room's membership set. (The unrestricted claim fails: a second
join with a different code adds the handle to the new set without leaving the
old one — see the counterexample.) -/
theorem single_room_per_handle (ops : List Op) (store : Store)
    (h : joinsConsistent ops = true) :
    atMostOneRoom (runOps (initReg, store) ops).1 := by
  have hinit : invC6 ops initReg := by
    constructor
    · intro q hq; cases hq
    · intro w c hc
      simp [initReg, assocFind] at hc
  have hrun := invC6_run ops h ops initReg store (fun o ho => ho) hinit
  obtain ⟨hroom, -⟩ := hrun
  intro p hp q hq w hwp hwq
  have h1 := hroom p hp w hwp
  have h2 := hroom q hq w hwq
  rw [h1] at h2
  exact Option.some.inj h2

/-- C6 amended witness: in the trace `ops6w` (handles 0 and 1 stick to rooms
`"A"` and `"B"` respectively, handle 0 rejoining `"A"`), no handle sits in two
rooms' sets. -/
theorem single_room_per_handle_witness :
    joinsConsistent ops6w = true ∧ atMostOneRoom (runOps (initReg, ⟨[], [], 0⟩) ops6w).1 :=
  ⟨by decide, single_room_per_handle ops6w ⟨[], [], 0⟩ (by decide)⟩

end Slido
